import Mathlib

/-!
Verification development for the document RAG application
(`utils.py`, `qa_system.py`, `document_processor.py`).

Text is modelled as `List Char`.  Python slicing, `str.rfind`,
`str.strip` and f-string formatting of non-negative integers are
embedded with Python's index-clamping semantics, since the chunking
loop manipulates possibly negative offsets.
-/

/-- Whitespace characters removed by Python `str.strip()` (ASCII subset). -/
def pyIsSpace (c : Char) : Bool :=
  c = ' ' || c = '\t' || c = '\n' || c = '\x0d' || c = '\x0b' || c = '\x0c'

/-- Python `s.strip()` on a character list. -/
def pyStrip (s : List Char) : List Char :=
  ((s.dropWhile pyIsSpace).reverse.dropWhile pyIsSpace).reverse

/-- Python slice-index adjustment: negative indices count from the end,
then the result is clamped to `[0, len]`. -/
def pyIdx (len : Nat) (i : Int) : Nat :=
  if i < 0 then (max 0 ((len : Int) + i)).toNat else min len i.toNat

/-- Python `s[i:j]` on a character list. -/
def pySlice (s : List Char) (i j : Int) : List Char :=
  let a := pyIdx s.length i
  let b := pyIdx s.length j
  (s.drop a).take (b - a)

/-- Index of the last occurrence of `c` in `seg`, if any. -/
def lastIdxOfAux (seg : List Char) (c : Char) : Option Nat :=
  match seg with
  | [] => none
  | x :: xs =>
    match lastIdxOfAux xs c with
    | some k => some (k + 1)
    | none => if x = c then some 0 else none

/-- Python `s.rfind(c, i, j)` for a single-character needle: the highest
index of `c` inside the clamped range `[i, j)`, or `-1`. -/
def pyRfindChar (s : List Char) (c : Char) (i j : Int) : Int :=
  let a := pyIdx s.length i
  let b := pyIdx s.length j
  match lastIdxOfAux ((s.drop a).take (b - a)) c with
  | some k => (a : Int) + k
  | none => -1

/-- End offset chosen by one iteration of `chunk_text` in `utils.py`:
the window end `start + chunk_size`, shortened to just after the last
sentence terminator when one occurs past the window midpoint. -/
def chunkEnd (text : List Char) (chunk_size : Nat) (start : Int) : Int :=
  let e0 : Int := start + (chunk_size : Int)
  if e0 < (text.length : Int) then
    let last_period := pyRfindChar text '.' start e0
    let last_exclaim := pyRfindChar text '!' start e0
    let last_question := pyRfindChar text '?' start e0
    let sentence_end := max last_period (max last_exclaim last_question)
    if sentence_end > start + ((chunk_size / 2 : Nat) : Int) then sentence_end + 1 else e0
  else e0

/-- The `while start < len(text)` loop of `chunk_text`, with explicit
fuel since the source loop does not always terminate.  `none` means the
fuel ran out before the loop exited. -/
def chunkLoop (text : List Char) (chunk_size chunk_overlap : Nat) :
    Nat → Int → List (List Char) → Option (List (List Char))
  | fuel, start, chunks =>
    if start < (text.length : Int) then
      match fuel with
      | 0 => none
      | fuel + 1 =>
        let e := chunkEnd text chunk_size start
        let chunk := pyStrip (pySlice text start e)
        let chunks' := if chunk = [] then chunks else chunks ++ [chunk]
        let start' := e - (chunk_overlap : Int)
        if (text.length : Int) ≤ start' then some chunks'
        else chunkLoop text chunk_size chunk_overlap fuel start' chunks'
    else some chunks

/-- The function `chunk_text(text, chunk_size=1000, chunk_overlap=200)`
of `utils.py`, with fuel for the possibly diverging loop. -/
def chunkTextFuel (fuel : Nat) (text : List Char)
    (chunk_size chunk_overlap : Nat) : Option (List (List Char)) :=
  if text = [] then some [] else chunkLoop text chunk_size chunk_overlap fuel 0 []

/-- Instrumented variant of the `chunk_text` loop recording the
`(start, end)` interval of every iteration instead of the chunk text. -/
def chunkSpansLoop (text : List Char) (chunk_size chunk_overlap : Nat) :
    Nat → Int → Option (List (Int × Int))
  | fuel, start =>
    if start < (text.length : Int) then
      match fuel with
      | 0 => none
      | fuel + 1 =>
        let e := chunkEnd text chunk_size start
        let start' := e - (chunk_overlap : Int)
        if (text.length : Int) ≤ start' then some [(start, e)]
        else (chunkSpansLoop text chunk_size chunk_overlap fuel start').map
          (fun rest => (start, e) :: rest)
    else some []

/-- Chunk texts reconstructed from recorded intervals: each chunk is the
stripped slice of its interval, with empty results dropped, exactly as
the source loop accumulates them. -/
def spansToChunks (text : List Char) (spans : List (Int × Int)) : List (List Char) :=
  (spans.map (fun se => pyStrip (pySlice text se.1 se.2))).filter (fun c => c ≠ [])

/-- Well-formed interval chains produced by the chunking loop: intervals
start where the loop's offset stood, are nonempty, no longer than
`chunk_size`, and each next interval begins `chunk_overlap` before the
previous end; the chain ends only once the offset passed the text end. -/
def goodSpans (len : Int) (chunk_size chunk_overlap : Nat) :
    Int → List (Int × Int) → Prop
  | start, [] => len ≤ start
  | start, (s, e) :: rest =>
      0 ≤ s ∧ s = start ∧ start < e ∧ e ≤ start + (chunk_size : Int) ∧
      goodSpans len chunk_size chunk_overlap (e - (chunk_overlap : Int)) rest

/-- Decimal digit character for a value below 10. -/
def digitChar (d : Nat) : Char :=
  if d = 0 then '0' else if d = 1 then '1' else if d = 2 then '2'
  else if d = 3 then '3' else if d = 4 then '4' else if d = 5 then '5'
  else if d = 6 then '6' else if d = 7 then '7' else if d = 8 then '8' else '9'

/-- Decimal digit list of a natural number, with fuel (any `fuel > n` suffices). -/
def natReprAux : Nat → Nat → List Char
  | 0, _ => []
  | fuel + 1, n =>
    if n < 10 then [digitChar n]
    else natReprAux fuel (n / 10) ++ [digitChar (n % 10)]

/-- Python `str(n)` / f-string formatting of a non-negative integer. -/
def natRepr (n : Nat) : List Char := natReprAux (n + 1) n

/-- One retrieved chunk as a langchain `Document`: its text plus the
metadata fields written by `DocumentProcessor.process_document`
(`source`, `page_number`, `chunk_id`, `file_type`); `page_number` is
always an integer there, so it is modelled as `Nat`. -/
structure Doc where
  page_content : List Char
  source : List Char
  page_number : Nat
  chunk_id : Nat
  file_type : List Char
deriving DecidableEq

/-- Dedup key `f"{source}_{page}"` used by `create_citation` in
`utils.py`, and with the same fields by `_extract_source_info` in
`qa_system.py` (their `metadata.get` defaults never fire for documents
built by the processor, which always sets both fields). -/
def citeKey (d : Doc) : List Char := d.source ++ '_' :: natRepr d.page_number

/-- Citation entry `f"{source} (Page {page})"`. -/
def citeFmt (d : Doc) : List Char :=
  d.source ++ " (Page ".toList ++ natRepr d.page_number ++ ")".toList

/-- Accumulation loop of `create_citation`: formats one citation per
document whose key has not been seen before. -/
def createCitationLoop : List Doc → List (List Char) → List (List Char) → List (List Char)
  | [], citations, _ => citations
  | doc :: docs, citations, seen =>
    let citation_key := citeKey doc
    if citation_key ∈ seen then createCitationLoop docs citations seen
    else createCitationLoop docs (citations ++ [citeFmt doc]) (seen ++ [citation_key])

/-- The function `create_citation` of `utils.py`: deduplicated citation
entries joined with `"; "`. -/
def create_citation (source_docs : List Doc) : List Char :=
  List.intercalate "; ".toList (createCitationLoop source_docs [] [])

/-- One entry of the `sources_info` list built by
`EnhancedQASystem._extract_source_info`. -/
structure SourceInfo where
  filename : List Char
  page_number : Nat
  chunk_id : Nat
  file_type : List Char
  content_preview : List Char
deriving DecidableEq

/-- Entry built from the first document carrying a given key: the
preview is the first 200 characters, with an ellipsis when truncated. -/
def mkSourceInfo (d : Doc) : SourceInfo :=
  { filename := d.source
    page_number := d.page_number
    chunk_id := d.chunk_id
    file_type := d.file_type
    content_preview :=
      if 200 < d.page_content.length then d.page_content.take 200 ++ "...".toList
      else d.page_content }

/-- Accumulation loop of `_extract_source_info`, deduplicating on the
same `f"{source}_{page}"` key as `create_citation`. -/
def extractSourceInfoLoop : List Doc → List SourceInfo → List (List Char) → List SourceInfo
  | [], sources_info, _ => sources_info
  | doc :: docs, sources_info, seen =>
    let source_key := citeKey doc
    if source_key ∈ seen then extractSourceInfoLoop docs sources_info seen
    else extractSourceInfoLoop docs (sources_info ++ [mkSourceInfo doc]) (seen ++ [source_key])

/-- The method `EnhancedQASystem._extract_source_info`. -/
def extract_source_info (source_docs : List Doc) : List SourceInfo :=
  extractSourceInfoLoop source_docs [] []

/-- Round half to even (the behaviour of Python `round`). -/
def roundHalfEven (q : ℚ) : ℤ :=
  if q - ⌊q⌋ < 1 / 2 then ⌊q⌋
  else if 1 / 2 < q - ⌊q⌋ then ⌊q⌋ + 1
  else if 2 ∣ ⌊q⌋ then ⌊q⌋ else ⌊q⌋ + 1

/-- Python `round(x, 2)`, over exact rationals. -/
def round2 (x : ℚ) : ℚ := (roundHalfEven (x * 100) : ℚ) / 100

/-- The method `EnhancedQASystem._calculate_confidence`, over exact
rationals in place of floats. -/
def calculate_confidence (source_docs : List Doc) : ℚ :=
  if source_docs = [] then 0
  else
    let num_sources : ℚ := source_docs.length
    let avg_content_length : ℚ :=
      (source_docs.map (fun d => (d.page_content.length : ℚ))).sum / num_sources
    round2 (min 1 (num_sources * 0.2 + avg_content_length / 1000 * 0.3))

/-- Python `s.split('.')` on a character list (keeps empty segments). -/
def splitOnDot : List Char → List (List Char)
  | [] => [[]]
  | c :: rest =>
    if c = '.' then [] :: splitOnDot rest
    else
      match splitOnDot rest with
      | s :: ss => (c :: s) :: ss
      | [] => [[c]]

/-- Python substring test `sub in hay`. -/
def containsSub (hay sub : List Char) : Bool :=
  hay.tails.any (fun t => sub.isPrefixOf t)

/-- The keyword set of `_extract_key_phrases_from_answer`. -/
def importantWords : List (List Char) :=
  ["important".toList, "key".toList, "significant".toList,
   "main".toList, "primary".toList, "essential".toList]

/-- The method `EnhancedQASystem._extract_key_phrases_from_answer`:
trimmed sentences of length strictly between 20 and 150 containing an
important keyword (case-insensitively), first three kept. -/
def extract_key_phrases_from_answer (answer : List Char) : List (List Char) :=
  (((splitOnDot answer).map pyStrip).filter
    (fun s => 20 < s.length && s.length < 150 &&
      importantWords.any (fun w => containsSub (s.map Char.toLower) w))).take 3

/-- The dictionary returned by `EnhancedQASystem.get_enhanced_response`. -/
structure QAResult where
  answer : List Char
  citations : List Char
  sources_info : List SourceInfo
  source_documents : List Doc
  key_phrases : List (List Char)
  confidence : ℚ
deriving DecidableEq

/-- The retrieval chain as seen by `get_enhanced_response`: a call that
either yields `(result, source_documents)` or raises, with the raised
message as the error value. -/
def QAChain : Type := List Char → Except (List Char) (List Char × List Doc)

/-- Evaluation of `self.qa_chain({"query": question})`: when no
vector store was initialized `self.qa_chain` is still `None` and the
call raises `TypeError` with this message. -/
def runChain (chain : Option QAChain) (question : List Char) :
    Except (List Char) (List Char × List Doc) :=
  match chain with
  | none => Except.error "'NoneType' object is not callable".toList
  | some f => f question

/-- The method `EnhancedQASystem.get_enhanced_response`: the whole body
runs under `try`, and the bare `except` converts any raised error into
a normal result dictionary, so the method itself never raises
(`Except.error` is unreachable by construction of the handler). -/
def get_enhanced_response (chain : Option QAChain) (question : List Char) :
    Except (List Char) QAResult :=
  match runChain chain question with
  | Except.ok (answer, source_docs) =>
    Except.ok
      { answer := answer
        citations := create_citation source_docs
        sources_info := extract_source_info source_docs
        source_documents := source_docs
        key_phrases := extract_key_phrases_from_answer answer
        confidence := calculate_confidence source_docs }
  | Except.error e =>
    Except.ok
      { answer := "Error generating response: ".toList ++ e
        citations := []
        sources_info := []
        source_documents := []
        key_phrases := []
        confidence := 0 }

/-- Per-document metadata as used by
`EnhancedQASystem.generate_executive_summary` (the stored dictionary
has further fields; only these two are read). -/
structure DocMeta where
  filename : List Char
  summary : List Char
deriving DecidableEq

/-- The external generator (`self.llm.invoke`): returns the response
content or raises with a message. -/
def LLM : Type := List Char → Except (List Char) (List Char)

/-- The method `EnhancedQASystem.generate_executive_summary`, with the
insertion-ordered `document_metadata` dictionary as a list. -/
def generate_executive_summary (llm : LLM) (document_metadata : List DocMeta) :
    List Char :=
  let summaries := document_metadata.map
    (fun m => "**".toList ++ m.filename ++ "**: ".toList ++ m.summary)
  if 1 < summaries.length then
    let prompt :=
      "Create a comprehensive executive summary combining the following individual document summaries:\n\n".toList
      ++ List.intercalate ['\n'] summaries
      ++ "\n\nProvide a unified executive summary highlighting key themes and insights across all documents:".toList
    match llm prompt with
    | Except.ok content => content
    | Except.error e => "Error generating executive summary: ".toList ++ e
  else if summaries.length = 1 then summaries.headD []
  else "No documents loaded for summary generation.".toList

/-- An uploaded file handed to the document processor (content handling
is external; only identity matters to the batch loop). -/
structure UFile where
  name : List Char
deriving DecidableEq

/-- The `result` dictionary returned by a successful
`DocumentProcessor.process_document` call. -/
structure FileResult where
  documents : List Doc
  metadata : DocMeta
deriving DecidableEq

/-- Per-file processing as seen by `process_multiple_documents`:
`process_document(uploaded_file, file_id)` returns success exactly when
it returns a populated result dictionary, so its outcome is modelled as
`Option FileResult`. -/
def ProcOne : Type := List Char → UFile → Option FileResult

/-- The `for uploaded_file in uploaded_files` loop of
`DocumentProcessor.process_multiple_documents`; `file_ids` supplies the
`uuid.uuid4()` value drawn for the file at each position. -/
def pmdLoop (process_document : ProcOne) (file_ids : Nat → List Char) :
    List UFile → Nat → List Doc → List (List Char × DocMeta) → Nat →
    Nat × List Doc × List (List Char × DocMeta)
  | [], _, all_documents, all_metadata, success_count =>
    (success_count, all_documents, all_metadata)
  | uploaded_file :: rest, i, all_documents, all_metadata, success_count =>
    let file_id := file_ids i
    match process_document file_id uploaded_file with
    | some result =>
      pmdLoop process_document file_ids rest (i + 1)
        (all_documents ++ result.documents)
        (all_metadata ++ [(file_id, result.metadata)]) (success_count + 1)
    | none =>
      pmdLoop process_document file_ids rest (i + 1)
        all_documents all_metadata success_count

/-- The method `DocumentProcessor.process_multiple_documents`: runs the
per-file loop, then reports `Processed {k}/{n} documents successfully.`
with the aggregated documents and metadata, or an overall failure when
nothing succeeded. -/
def process_multiple_documents (process_document : ProcOne)
    (file_ids : Nat → List Char) (uploaded_files : List UFile) :
    Bool × List Char × List Doc × List (List Char × DocMeta) :=
  let r := pmdLoop process_document file_ids uploaded_files 0 [] [] 0
  if 0 < r.1 then
    (true,
     "Processed ".toList ++ natRepr r.1 ++ "/".toList
       ++ natRepr uploaded_files.length ++ " documents successfully.".toList,
     r.2.1, r.2.2)
  else (false, "Failed to process any documents.".toList, [], [])

/-- Spec-side confidence formula, written as the spec states it:
`min(1.0, 0.2 * num_sources + 0.3 * (avg_chunk_length / 1000))`,
rounded to 2 decimals, `0.0` for no sources. -/
def confidenceSpec (source_docs : List Doc) : ℚ :=
  if source_docs = [] then 0
  else
    let num_sources : ℚ := source_docs.length
    let avg_chunk_length : ℚ :=
      (source_docs.map (fun d => (d.page_content.length : ℚ))).sum / num_sources
    round2 (min 1 (0.2 * num_sources + 0.3 * (avg_chunk_length / 1000)))

/-- Spec-side citation dedup state: first-seen `(filename, page_number)`
pairs, in order. -/
def citationPairsLoop : List Doc → List ((List Char) × Nat) → List ((List Char) × Nat)
  | [], acc => acc
  | d :: ds, acc =>
    if (d.source, d.page_number) ∈ acc then citationPairsLoop ds acc
    else citationPairsLoop ds (acc ++ [(d.source, d.page_number)])

/-- Formatted citation text of one `(filename, page_number)` pair. -/
def fmtPair (p : (List Char) × Nat) : List Char :=
  p.1 ++ " (Page ".toList ++ natRepr p.2 ++ ")".toList

/-- Dedup key of one `(filename, page_number)` pair, as `create_citation`
builds it with an f-string. -/
def pairKey (p : (List Char) × Nat) : List Char := p.1 ++ '_' :: natRepr p.2

/-- Spec-side citation string, written as the spec states it:
deduplicate on the `(filename, page_number)` pair preserving first-seen
order, format, join with `"; "`. -/
def citationByPairs (source_docs : List Doc) : List Char :=
  List.intercalate "; ".toList ((citationPairsLoop source_docs []).map fmtPair)

/-- Numeric value of a decimal digit character (proof helper). -/
def digitVal (c : Char) : Nat := c.toNat - 48

/-- Number denoted by a decimal digit list (proof helper). -/
def valNat (ds : List Char) : Nat := ds.foldl (fun a c => 10 * a + digitVal c) 0

/-- Citation text corresponding to one `sources_info` entry. -/
def infoFmt (si : SourceInfo) : List Char :=
  si.filename ++ " (Page ".toList ++ natRepr si.page_number ++ ")".toList

/-- Documents delivered by one per-file outcome (none for a failure). -/
def batchDocsOf (o : Option FileResult) : List Doc :=
  match o with
  | some r => r.documents
  | none => []

/-- Metadata delivered by one per-file outcome (placeholder for a
failure; only applied to successes). -/
def batchMetaOf (o : Option FileResult) : DocMeta :=
  match o with
  | some r => r.metadata
  | none => { filename := [], summary := [] }

/-- A 500-character retrieved chunk, for the confidence examples. -/
def cdoc500 : Doc :=
  { page_content := List.replicate 500 'a'
    source := "doc.pdf".toList
    page_number := 1
    chunk_id := 0
    file_type := "pdf".toList }

/-- A 100-character retrieved chunk, for the confidence examples. -/
def cdoc100 : Doc :=
  { page_content := List.replicate 100 'a'
    source := "doc.pdf".toList
    page_number := 1
    chunk_id := 0
    file_type := "pdf".toList }

/-- Claim C5, counterexample: three sources of length 500 yield
confidence 3/4 = 0.75, not the 1.0 the spec example computes
(the spec miscalculates `0.3 * (500 / 1000)` as `0.45`). -/
theorem confidence_three_sources_500_is_075 :
    calculate_confidence [cdoc500, cdoc500, cdoc500] = 3 / 4 ∧ (3 / 4 : ℚ) ≠ 1 := by
  constructor
  · rw [calculate_confidence, if_neg (by simp)]
    simp only [cdoc500, List.map_cons, List.map_nil, List.sum_cons,
      List.sum_nil, List.length_cons, List.length_nil, List.length_replicate,
      round2, roundHalfEven]
    norm_num [min_def]
  · norm_num

/-- Claim C5, amended: for every source list the confidence equals the
spec formula `min(1.0, 0.2 * num_sources + 0.3 * (avg_length / 1000))`
rounded to 2 decimals (0 when empty); one source of length 100 gives
0.23, and three sources of length 500 give 0.75 (not 1.0). -/
theorem confidence_matches_formula :
    (∀ source_docs : List Doc, calculate_confidence source_docs = confidenceSpec source_docs) ∧
    calculate_confidence [cdoc100] = 23 / 100 ∧
    calculate_confidence [cdoc500, cdoc500, cdoc500] = 3 / 4 := by
  refine ⟨fun source_docs => ?_, ?_, ?_⟩
  · rw [calculate_confidence, confidenceSpec]
    rcases eq_or_ne source_docs [] with h | h
    · simp [h]
    · rw [if_neg h, if_neg h]
      ring_nf
  · rw [calculate_confidence, if_neg (by simp)]
    simp only [cdoc100, List.map_cons, List.map_nil, List.sum_cons,
      List.sum_nil, List.length_cons, List.length_nil, List.length_replicate,
      round2, roundHalfEven]
    norm_num [min_def]
  · rw [calculate_confidence, if_neg (by simp)]
    simp only [cdoc500, List.map_cons, List.map_nil, List.sum_cons,
      List.sum_nil, List.length_cons, List.length_nil, List.length_replicate,
      round2, roundHalfEven]
    norm_num [min_def]

/-- Claim C7, counterexample: with exactly one loaded document the
executive summary is the stored summary prefixed by the bolded
filename, not the stored summary verbatim. -/
theorem executive_summary_single_not_verbatim :
    generate_executive_summary (fun _ => Except.error [])
        [{ filename := "a.pdf".toList, summary := "Key findings.".toList }]
      = "**a.pdf**: Key findings.".toList ∧
    ("**a.pdf**: Key findings.".toList : List Char) ≠ "Key findings.".toList := by
  exact ⟨rfl, by decide⟩

/-- Claim C7, amended: with zero documents the executive summary is the
fixed no-documents message, and with exactly one document it is
`"**<filename>**: <summary>"`, i.e. the stored summary with the bolded
filename prepended rather than the summary verbatim. -/
theorem executive_summary_zero_and_one :
    (∀ llm : LLM, generate_executive_summary llm [] =
      "No documents loaded for summary generation.".toList) ∧
    (∀ (llm : LLM) (m : DocMeta), generate_executive_summary llm [m] =
      "**".toList ++ m.filename ++ "**: ".toList ++ m.summary) := by
  refine ⟨fun llm => rfl, fun llm m => ?_⟩
  simp [generate_executive_summary]

/-- Claim C8: whenever the retrieval chain call raises, the answer
operation returns a normal result whose answer is the descriptive error
string and whose citations, sources info, key phrases and confidence
are all empty or zero; nothing propagates as an error. -/
theorem degraded_result_on_generator_failure :
    ∀ (f : QAChain) (question e : List Char), f question = Except.error e →
      get_enhanced_response (some f) question =
        Except.ok
          { answer := "Error generating response: ".toList ++ e
            citations := []
            sources_info := []
            source_documents := []
            key_phrases := []
            confidence := 0 } := by
  intro f question e h
  simp [get_enhanced_response, runChain, h]

/-- Witness for C8 at a concrete failing generator and question. -/
theorem degraded_result_on_generator_failure_witness :
    get_enhanced_response (some (fun _ => Except.error "quota exceeded".toList))
        "What changed?".toList =
      Except.ok
        { answer := "Error generating response: ".toList ++ "quota exceeded".toList
          citations := []
          sources_info := []
          source_documents := []
          key_phrases := []
          confidence := 0 } :=
  degraded_result_on_generator_failure _ _ _ rfl

/-- Claim C1, counterexample: with no documents ingested the chain is
still `None`; asking a question yields a normal `ok` result built by
the blanket exception handler, so the failure is silently recovered
rather than surfaced as an explicit error. -/
theorem empty_index_silently_recovered :
    get_enhanced_response none "What is the summary?".toList =
      Except.ok
        { answer := "Error generating response: 'NoneType' object is not callable".toList
          citations := []
          sources_info := []
          source_documents := []
          key_phrases := []
          confidence := 0 } := rfl

/-- Claim C1, amended: for every question asked while the index is
empty, the answer operation returns a normal degraded result whose
answer is the caught `TypeError` text; no `NoDocumentsError` exists and
no error reaches the caller. -/
theorem empty_index_returns_degraded_ok :
    ∀ question : List Char,
      get_enhanced_response none question =
        Except.ok
          { answer := "Error generating response: ".toList
              ++ "'NoneType' object is not callable".toList
            citations := []
            sources_info := []
            source_documents := []
            key_phrases := []
            confidence := 0 } :=
  fun _ => rfl

/-- Helper for C2: once the offset reaches the fixed point `-150` on
input `"hello"` with `chunk_size=100, chunk_overlap=150`, every further
iteration recomputes the same state, so no amount of fuel finishes. -/
lemma hello_loop_stuck : ∀ (fuel : Nat) (acc : List (List Char)),
    chunkLoop "hello".toList 100 150 fuel (-150) acc = none := by
  intro fuel
  induction fuel with
  | zero => intro acc; rfl
  | succ n ih =>
    intro acc
    have h : chunkLoop "hello".toList 100 150 (n + 1) (-150) acc
        = chunkLoop "hello".toList 100 150 n (-150) acc := rfl
    rw [h]; exact ih acc

/-- Claim C2: `chunk_text` contains no configuration validation at all;
on `chunk("hello", size=100, overlap=150)` the loop never terminates
(the offset walks `0, -50, -100` and then sticks at `-150` forever), so
instead of failing with a `ConfigurationError` the call diverges. -/
theorem chunk_overlap_ge_size_diverges :
    ∀ fuel : Nat, chunkTextFuel fuel "hello".toList 100 150 = none := by
  intro fuel
  match fuel with
  | 0 => rfl
  | 1 => rfl
  | 2 => rfl
  | 3 => rfl
  | (n + 4) =>
    have h : chunkTextFuel (n + 4) "hello".toList 100 150
        = chunkLoop "hello".toList 100 150 (n + 1) (-150)
            ["hello".toList, "hello".toList] := rfl
    rw [h]; exact hello_loop_stuck (n + 1) _

/-- Helper for C3: on `"abcdefg.xxxxx"` with `chunk_size=10,
chunk_overlap=8` (a valid pair, `overlap < size`), the sentence
terminator at index 7 pulls the window end back to 8 and the next
offset is `8 - 8 = 0` again: the loop sticks at offset 0 while
appending the same chunk forever. -/
lemma sentence_loop_stuck : ∀ (fuel : Nat) (acc : List (List Char)),
    chunkLoop "abcdefg.xxxxx".toList 10 8 fuel 0 acc = none := by
  intro fuel
  induction fuel with
  | zero => intro acc; rfl
  | succ n ih =>
    intro acc
    have h : chunkLoop "abcdefg.xxxxx".toList 10 8 (n + 1) 0 acc
        = chunkLoop "abcdefg.xxxxx".toList 10 8 n 0 (acc ++ ["abcdefg.".toList]) := rfl
    rw [h]; exact ih _

/-- Claim C3: with the valid parameters `chunk_size=10, chunk_overlap=8`
and text `"abcdefg.xxxxx"`, the start offset does not increase (it
returns to 0 on every iteration because the sentence-boundary
adjustment undercuts the overlap), and the loop never terminates. -/
theorem chunk_valid_overlap_diverges :
    ∀ fuel : Nat, chunkTextFuel fuel "abcdefg.xxxxx".toList 10 8 = none := by
  intro fuel
  have h : chunkTextFuel fuel "abcdefg.xxxxx".toList 10 8
      = chunkLoop "abcdefg.xxxxx".toList 10 8 fuel 0 [] := rfl
  rw [h]; exact sentence_loop_stuck fuel []

/-- Decimal digit characters are never an underscore. -/
lemma digitChar_ne_underscore (d : Nat) : digitChar d ≠ '_' := by
  unfold digitChar
  repeat' split
  all_goals decide

/-- Decimal representations contain no underscore. -/
lemma natReprAux_no_underscore :
    ∀ (fuel n : Nat) (c : Char), c ∈ natReprAux fuel n → c ≠ '_' := by
  intro fuel
  induction fuel with
  | zero => intro n c hc; simp [natReprAux] at hc
  | succ m ih =>
    intro n c hc
    rw [natReprAux] at hc
    by_cases h : n < 10
    · rw [if_pos h] at hc
      simp only [List.mem_singleton] at hc
      subst hc; exact digitChar_ne_underscore n
    · rw [if_neg h] at hc
      rcases List.mem_append.mp hc with h1 | h1
      · exact ih _ _ h1
      · simp only [List.mem_singleton] at h1
        subst h1; exact digitChar_ne_underscore _

/-- Appending one digit multiplies the parsed value by ten. -/
lemma valNat_snoc (ds : List Char) (c : Char) :
    valNat (ds ++ [c]) = 10 * valNat ds + digitVal c := by
  simp [valNat, List.foldl_append]

/-- Digit characters parse back to their value. -/
lemma digitVal_digitChar (d : Nat) (hd : d < 10) : digitVal (digitChar d) = d := by
  interval_cases d <;> decide

/-- Parsing inverts the decimal representation, given enough fuel. -/
lemma valNat_natReprAux : ∀ (fuel n : Nat), n < fuel → valNat (natReprAux fuel n) = n := by
  intro fuel
  induction fuel with
  | zero => intro n hn; omega
  | succ m ih =>
    intro n hn
    rw [natReprAux]
    by_cases h : n < 10
    · rw [if_pos h]
      simpa [valNat] using digitVal_digitChar n h
    · rw [if_neg h]
      rw [valNat_snoc, ih (n / 10) (by omega),
        digitVal_digitChar _ (Nat.mod_lt _ (by norm_num))]
      omega

/-- The decimal representation contains no underscore. -/
lemma natRepr_no_underscore (n : Nat) : '_' ∉ natRepr n :=
  fun h => natReprAux_no_underscore _ _ _ h rfl

/-- Parsing inverts `natRepr`. -/
lemma valNat_natRepr (n : Nat) : valNat (natRepr n) = n :=
  valNat_natReprAux (n + 1) n (Nat.lt_succ_self n)

/-- Decimal representation is injective. -/
lemma natRepr_inj {m n : Nat} (h : natRepr m = natRepr n) : m = n := by
  have hm := valNat_natRepr m
  rw [h, valNat_natRepr] at hm
  exact hm.symm

/-- Splitting at a separator absent from both prefixes is unambiguous. -/
lemma append_sep_inj :
    ∀ (v1 v2 w1 w2 : List Char), '_' ∉ v1 → '_' ∉ v2 →
      v1 ++ '_' :: w1 = v2 ++ '_' :: w2 → v1 = v2 ∧ w1 = w2 := by
  intro v1
  induction v1 with
  | nil =>
    intro v2 w1 w2 _ h2 h
    cases v2 with
    | nil => simpa using h
    | cons c cs =>
      rw [List.nil_append, List.cons_append] at h
      injection h with hc _
      subst hc
      exact absurd (List.mem_cons_self _ _) h2
  | cons c cs ih =>
    intro v2 w1 w2 h1 h2 h
    cases v2 with
    | nil =>
      rw [List.nil_append, List.cons_append] at h
      injection h with hc _
      subst hc
      exact absurd (List.mem_cons_self _ _) h1
    | cons d ds =>
      rw [List.cons_append, List.cons_append] at h
      injection h with hc htl
      subst hc
      have h1' : '_' ∉ cs := fun hx => h1 (List.mem_cons_of_mem _ hx)
      have h2' : '_' ∉ ds := fun hx => h2 (List.mem_cons_of_mem _ hx)
      obtain ⟨hv, hw⟩ := ih ds w1 w2 h1' h2' htl
      exact ⟨by rw [hv], hw⟩

/-- The f-string key `f"{source}_{page}"` determines the
`(source, page)` pair: the digits after the last underscore recover the
page, the rest recovers the filename. -/
lemma pairKey_injective : Function.Injective pairKey := by
  intro p q h
  have h' := congrArg List.reverse h
  simp only [pairKey, List.reverse_append, List.reverse_cons, List.append_assoc,
    List.singleton_append] at h'
  have hp : '_' ∉ (natRepr p.2).reverse := fun hx =>
    natRepr_no_underscore p.2 (List.mem_reverse.mp hx)
  have hq : '_' ∉ (natRepr q.2).reverse := fun hx =>
    natRepr_no_underscore q.2 (List.mem_reverse.mp hx)
  obtain ⟨hv, hw⟩ := append_sep_inj _ _ _ _ hp hq h'
  have h2 : p.2 = q.2 := natRepr_inj (List.reverse_injective hv)
  have h1 : p.1 = q.1 := List.reverse_injective hw
  exact Prod.ext h1 h2

/-- The citation loop keyed on `f"{source}_{page}"` strings computes
exactly the first-seen-pair dedup. -/
lemma createCitationLoop_eq_pairs :
    ∀ (ds : List Doc) (pairs : List ((List Char) × Nat)),
      createCitationLoop ds (pairs.map fmtPair) (pairs.map pairKey)
        = (citationPairsLoop ds pairs).map fmtPair := by
  intro ds
  induction ds with
  | nil => intro pairs; rfl
  | cons d rest ih =>
    intro pairs
    simp only [createCitationLoop, citationPairsLoop]
    have hkey : citeKey d = pairKey (d.source, d.page_number) := rfl
    by_cases h : (d.source, d.page_number) ∈ pairs
    · rw [hkey, if_pos ((List.mem_map_of_injective pairKey_injective).mpr h), if_pos h]
      exact ih pairs
    · rw [hkey, if_neg (fun hx => h ((List.mem_map_of_injective pairKey_injective).mp hx)),
        if_neg h]
      have h1 : pairs.map fmtPair ++ [citeFmt d]
          = (pairs ++ [(d.source, d.page_number)]).map fmtPair := by
        simp [fmtPair, citeFmt]
      have h2 : pairs.map pairKey ++ [pairKey (d.source, d.page_number)]
          = (pairs ++ [(d.source, d.page_number)]).map pairKey := by
        simp
      rw [h1, h2]
      exact ih _

/-- Claim C6: the citation string deduplicates on the
`(filename, page_number)` pair in first-seen order (the underscore key
cannot conflate distinct pairs because page numbers print as digits),
formats entries as `"<filename> (Page <n>)"` and joins with `"; "`;
includes the spec example. -/
theorem citation_dedups_on_pair :
    (∀ source_docs : List Doc, create_citation source_docs = citationByPairs source_docs) ∧
    create_citation
      [{ page_content := "x".toList, source := "a.pdf".toList, page_number := 1,
         chunk_id := 0, file_type := "pdf".toList },
       { page_content := "y".toList, source := "a.pdf".toList, page_number := 1,
         chunk_id := 1, file_type := "pdf".toList },
       { page_content := "z".toList, source := "b.pdf".toList, page_number := 2,
         chunk_id := 0, file_type := "pdf".toList }]
      = "a.pdf (Page 1); b.pdf (Page 2)".toList := by
  constructor
  · intro source_docs
    rw [create_citation, citationByPairs]
    have h := createCitationLoop_eq_pairs source_docs []
    simp only [List.map_nil] at h
    rw [h]
  · rfl

/-- The citation loop and the source-info loop walk the same keys, so
the citation entries are exactly the formatted source-info entries. -/
lemma createCitationLoop_eq_infoLoop :
    ∀ (ds : List Doc) (infos : List SourceInfo) (seen : List (List Char)),
      createCitationLoop ds (infos.map infoFmt) seen
        = (extractSourceInfoLoop ds infos seen).map infoFmt := by
  intro ds
  induction ds with
  | nil => intro infos seen; rfl
  | cons d rest ih =>
    intro infos seen
    simp only [createCitationLoop, extractSourceInfoLoop]
    by_cases h : citeKey d ∈ seen
    · rw [if_pos h, if_pos h]
      exact ih infos seen
    · rw [if_neg h, if_neg h]
      have h1 : infos.map infoFmt ++ [citeFmt d]
          = (infos ++ [mkSourceInfo d]).map infoFmt := by
        simp [infoFmt, citeFmt, mkSourceInfo]
      rw [h1]
      exact ih _ _

/-- Claim C10: the citation string is the `"; "`-join of exactly one
formatted entry per source-info entry, in the same order, each naming
the filename and page number of its source-info entry; in particular
the entry count equals the source-info length. -/
theorem citation_aligned_with_source_info :
    ∀ source_docs : List Doc,
      create_citation source_docs
        = List.intercalate "; ".toList ((extract_source_info source_docs).map infoFmt) ∧
      (createCitationLoop source_docs [] []).length
        = (extract_source_info source_docs).length := by
  intro source_docs
  have h := createCitationLoop_eq_infoLoop source_docs [] []
  simp only [List.map_nil] at h
  constructor
  · rw [create_citation, extract_source_info, h]
  · rw [h, extract_source_info, List.length_map]

/-- The batch loop aggregates exactly the successful files, in order,
regardless of interleaved failures: success count, document
concatenation and metadata entries come from filtering the enumerated
file list on per-file success. -/
lemma pmdLoop_spec :
    ∀ (proc : ProcOne) (ids : Nat → List Char) (fs : List UFile) (i : Nat)
      (docs : List Doc) (metas : List (List Char × DocMeta)) (k : Nat),
      pmdLoop proc ids fs i docs metas k =
        (k + ((fs.enumFrom i).filter (fun p => (proc (ids p.1) p.2).isSome)).length,
         docs ++ ((fs.enumFrom i).filter (fun p => (proc (ids p.1) p.2).isSome)).flatMap
           (fun p => batchDocsOf (proc (ids p.1) p.2)),
         metas ++ ((fs.enumFrom i).filter (fun p => (proc (ids p.1) p.2).isSome)).map
           (fun p => (ids p.1, batchMetaOf (proc (ids p.1) p.2)))) := by
  intro proc ids fs
  induction fs with
  | nil => intro i docs metas k; simp [pmdLoop]
  | cons f rest ih =>
    intro i docs metas k
    rw [pmdLoop, List.enumFrom_cons]
    cases hp : proc (ids i) f with
    | some r =>
      show pmdLoop proc ids rest (i + 1) (docs ++ r.documents)
          (metas ++ [(ids i, r.metadata)]) (k + 1) = _
      rw [ih (i + 1) (docs ++ r.documents) (metas ++ [(ids i, r.metadata)]) (k + 1)]
      simp [List.filter_cons, hp, batchDocsOf, batchMetaOf, List.append_assoc]
      omega
    | none =>
      show pmdLoop proc ids rest (i + 1) docs metas k = _
      rw [ih (i + 1) docs metas k]
      simp [List.filter_cons, hp]

/-- Claim C9: batch ingestion processes files in isolation — a failing
file is skipped and every other file still contributes — and the result
reports `Processed {successes}/{total} documents successfully.` with
the documents of exactly the successful files; includes the 2-of-3
spec example with one unsupported file. -/
theorem batch_isolated_and_counted :
    (∀ (proc : ProcOne) (ids : Nat → List Char) (files : List UFile),
      process_multiple_documents proc ids files =
        (let oks := (files.enumFrom 0).filter (fun p => (proc (ids p.1) p.2).isSome)
         if 0 < oks.length then
           (true,
            "Processed ".toList ++ natRepr oks.length ++ "/".toList
              ++ natRepr files.length ++ " documents successfully.".toList,
            oks.flatMap (fun p => batchDocsOf (proc (ids p.1) p.2)),
            oks.map (fun p => (ids p.1, batchMetaOf (proc (ids p.1) p.2))))
         else (false, "Failed to process any documents.".toList, [], []))) ∧
    process_multiple_documents
      (fun _ f =>
        if f.name = "bad.xyz".toList then none
        else some
          { documents := [{ page_content := f.name, source := f.name, page_number := 1,
                            chunk_id := 0, file_type := "txt".toList }]
            metadata := { filename := f.name, summary := [] } })
      (fun n => natRepr n)
      [{ name := "a.txt".toList }, { name := "bad.xyz".toList }, { name := "c.txt".toList }]
      = (true, "Processed 2/3 documents successfully.".toList,
         [{ page_content := "a.txt".toList, source := "a.txt".toList, page_number := 1,
            chunk_id := 0, file_type := "txt".toList },
          { page_content := "c.txt".toList, source := "c.txt".toList, page_number := 1,
            chunk_id := 0, file_type := "txt".toList }],
         [(['0'], { filename := "a.txt".toList, summary := [] }),
          (['2'], { filename := "c.txt".toList, summary := [] })]) := by
  constructor
  · intro proc ids files
    rw [process_multiple_documents, pmdLoop_spec]
    simp only [Nat.zero_add, List.nil_append]
  · rfl

/-- A found last-occurrence index lies inside the segment. -/
lemma lastIdxOfAux_lt_length :
    ∀ (seg : List Char) (c : Char) (k : Nat), lastIdxOfAux seg c = some k → k < seg.length := by
  intro seg
  induction seg with
  | nil => intro c k h; simp [lastIdxOfAux] at h
  | cons x xs ih =>
    intro c k h
    rw [lastIdxOfAux] at h
    cases hr : lastIdxOfAux xs c with
    | some k' =>
      rw [hr] at h
      injection h with h
      subst h
      exact Nat.succ_lt_succ (ih c k' hr)
    | none =>
      rw [hr] at h
      by_cases hx : x = c
      · rw [if_pos hx] at h
        injection h with h
        subst h
        exact Nat.succ_pos _
      · rw [if_neg hx] at h
        exact absurd h (by simp)

/-- The rfind result is always below a non-negative upper search bound. -/
lemma pyRfindChar_lt (s : List Char) (c : Char) (i j : Int) (hj : 0 ≤ j) :
    pyRfindChar s c i j < j := by
  simp only [pyRfindChar]
  cases hr : lastIdxOfAux ((s.drop (pyIdx s.length i)).take (pyIdx s.length j - pyIdx s.length i)) c with
  | none =>
    show (-1 : Int) < j
    omega
  | some k =>
    show ((pyIdx s.length i : Nat) : Int) + (k : Int) < j
    have hk := lastIdxOfAux_lt_length _ c k hr
    rw [List.length_take, List.length_drop] at hk
    have hb : ((pyIdx s.length j : Nat) : Int) ≤ j := by
      rw [pyIdx, if_neg (by omega)]
      omega
    omega

/-- A chunk window never exceeds `chunk_size` characters: the
sentence-boundary adjustment only ever shortens the window. -/
lemma chunkEnd_le (text : List Char) (chunk_size : Nat) (start : Int) (h0 : 0 ≤ start) :
    chunkEnd text chunk_size start ≤ start + chunk_size := by
  rw [chunkEnd]
  by_cases h : start + (chunk_size : Int) < (text.length : Int)
  · rw [if_pos h]
    have hp := pyRfindChar_lt text '.' start (start + chunk_size) (by omega)
    have he := pyRfindChar_lt text '!' start (start + chunk_size) (by omega)
    have hq := pyRfindChar_lt text '?' start (start + chunk_size) (by omega)
    by_cases hse : max (pyRfindChar text '.' start (start + chunk_size))
        (max (pyRfindChar text '!' start (start + chunk_size))
          (pyRfindChar text '?' start (start + chunk_size))) > start + ((chunk_size / 2 : Nat) : Int)
    · rw [if_pos hse]
      simp only [max_lt_iff] at *
      omega
    · rw [if_neg hse]
  · rw [if_neg h]

/-- With the default size 1000 every window end lies at least
`size/2 + 2 = 502` past the start, which bounds the backward jump of
the next offset. -/
lemma chunkEnd_lower (text : List Char) (start : Int) :
    start + 502 ≤ chunkEnd text 1000 start := by
  rw [chunkEnd]
  by_cases h : start + ((1000 : Nat) : Int) < (text.length : Int)
  · rw [if_pos h]
    by_cases hse : max (pyRfindChar text '.' start (start + (1000 : Nat)))
        (max (pyRfindChar text '!' start (start + (1000 : Nat)))
          (pyRfindChar text '?' start (start + (1000 : Nat)))) > start + ((1000 / 2 : Nat) : Int)
    · rw [if_pos hse]
      norm_num at hse ⊢
      omega
    · rw [if_neg hse]
      norm_num
  · rw [if_neg h]
    norm_num

/-- With the default parameters the loop always terminates within
`len + 1` iterations (each iteration advances the offset by at least
302), and the recorded intervals form a well-formed chain. -/
lemma chunkSpansLoop_total (text : List Char) :
    ∀ (fuel : Nat) (start : Int), 0 ≤ start →
      (text.length : Int) - start ≤ fuel →
      ∃ spans, chunkSpansLoop text 1000 200 fuel start = some spans ∧
        goodSpans (text.length) 1000 200 start spans := by
  intro fuel
  induction fuel with
  | zero =>
    intro start h0 hf
    refine ⟨[], ?_, ?_⟩
    · have hstep : chunkSpansLoop text 1000 200 0 start =
          if start < (text.length : Int) then none else some [] := rfl
      rw [hstep, if_neg (by omega)]
    · show (text.length : Int) ≤ start
      omega
  | succ n ih =>
    intro start h0 hf
    have hstep : chunkSpansLoop text 1000 200 (n + 1) start =
        if start < (text.length : Int) then
          (if (text.length : Int) ≤ chunkEnd text 1000 start - (200 : Nat) then
            some [(start, chunkEnd text 1000 start)]
          else (chunkSpansLoop text 1000 200 n (chunkEnd text 1000 start - (200 : Nat))).map
            (fun rest => (start, chunkEnd text 1000 start) :: rest))
        else some [] := rfl
    by_cases hlt : start < (text.length : Int)
    · have he1 := chunkEnd_lower text start
      have he2 := chunkEnd_le text 1000 start h0
      by_cases hbr : (text.length : Int) ≤ chunkEnd text 1000 start - (200 : Nat)
      · refine ⟨[(start, chunkEnd text 1000 start)], ?_, ?_⟩
        · rw [hstep, if_pos hlt, if_pos hbr]
        · refine ⟨h0, rfl, by omega, by push_cast; omega, ?_⟩
          show (text.length : Int) ≤ _
          push_cast
          push_cast at hbr
          omega
      · obtain ⟨rest, hrest, hgood⟩ :=
          ih (chunkEnd text 1000 start - (200 : Nat)) (by push_cast; omega)
            (by push_cast; push_cast at hf; omega)
        refine ⟨(start, chunkEnd text 1000 start) :: rest, ?_, ?_⟩
        · rw [hstep, if_pos hlt, if_neg hbr, hrest]
          rfl
        · exact ⟨h0, rfl, by omega, by push_cast; omega, by push_cast at hgood ⊢; exact hgood⟩
    · refine ⟨[], ?_, ?_⟩
      · rw [hstep, if_neg hlt]
      · show (text.length : Int) ≤ start
        omega

/-- Reconstructed chunks of an empty span list. -/
lemma spansToChunks_nil (text : List Char) : spansToChunks text [] = [] := rfl

/-- Reconstructed chunks of a span chain, one interval at a time. -/
lemma spansToChunks_cons (text : List Char) (s e : Int) (rest : List (Int × Int)) :
    spansToChunks text ((s, e) :: rest) =
      (if pyStrip (pySlice text s e) = [] then [] else [pyStrip (pySlice text s e)])
        ++ spansToChunks text rest := by
  rw [spansToChunks, List.map_cons, List.filter_cons]
  by_cases h : pyStrip (pySlice text s e) = []
  · simp [h, spansToChunks]
  · simp [h, spansToChunks]

/-- The source loop computes exactly the stripped, nonempty slices of
the recorded intervals, appended to its accumulator. -/
lemma chunkLoop_eq_spans (text : List Char) (cs co : Nat) :
    ∀ (fuel : Nat) (start : Int) (acc : List (List Char)),
      chunkLoop text cs co fuel start acc
        = (chunkSpansLoop text cs co fuel start).map
            (fun spans => acc ++ spansToChunks text spans) := by
  intro fuel
  induction fuel with
  | zero =>
    intro start acc
    have hL : chunkLoop text cs co 0 start acc =
        if start < (text.length : Int) then none else some acc := rfl
    have hS : chunkSpansLoop text cs co 0 start =
        if start < (text.length : Int) then none else some [] := rfl
    rw [hL, hS]
    by_cases hlt : start < (text.length : Int)
    · rw [if_pos hlt, if_pos hlt]
      rfl
    · rw [if_neg hlt, if_neg hlt]
      simp [spansToChunks_nil]
  | succ n ih =>
    intro start acc
    have hL : chunkLoop text cs co (n + 1) start acc =
        if start < (text.length : Int) then
          (if (text.length : Int) ≤ chunkEnd text cs start - (co : Int) then
            some (if pyStrip (pySlice text start (chunkEnd text cs start)) = [] then acc
                  else acc ++ [pyStrip (pySlice text start (chunkEnd text cs start))])
          else chunkLoop text cs co n (chunkEnd text cs start - (co : Int))
            (if pyStrip (pySlice text start (chunkEnd text cs start)) = [] then acc
             else acc ++ [pyStrip (pySlice text start (chunkEnd text cs start))]))
        else some acc := rfl
    have hS : chunkSpansLoop text cs co (n + 1) start =
        if start < (text.length : Int) then
          (if (text.length : Int) ≤ chunkEnd text cs start - (co : Int) then
            some [(start, chunkEnd text cs start)]
          else (chunkSpansLoop text cs co n (chunkEnd text cs start - (co : Int))).map
            (fun rest => (start, chunkEnd text cs start) :: rest))
        else some [] := rfl
    rw [hL, hS]
    by_cases hlt : start < (text.length : Int)
    · rw [if_pos hlt, if_pos hlt]
      by_cases hbr : (text.length : Int) ≤ chunkEnd text cs start - (co : Int)
      · rw [if_pos hbr, if_pos hbr]
        rw [Option.map_some']
        rw [spansToChunks_cons, spansToChunks_nil, List.append_nil]
        by_cases hck : pyStrip (pySlice text start (chunkEnd text cs start)) = []
        · rw [if_pos hck, if_pos hck, List.append_nil]
        · rw [if_neg hck, if_neg hck]
      · rw [if_neg hbr, if_neg hbr]
        rw [ih (chunkEnd text cs start - (co : Int)) _]
        rw [Option.map_map]
        apply congrFun
        apply congrArg
        funext rest
        simp only [Function.comp_apply, spansToChunks_cons]
        by_cases hck : pyStrip (pySlice text start (chunkEnd text cs start)) = []
        · rw [if_pos hck, if_pos hck]
          simp
        · rw [if_neg hck, if_neg hck]
          simp
    · rw [if_neg hlt, if_neg hlt]
      simp [spansToChunks_nil]

/-- A well-formed interval chain covers every text position from its
starting offset to the end of the text: the next interval starts
`overlap` before the previous end, so there is never a gap. -/
lemma goodSpans_cover :
    ∀ (spans : List (Int × Int)) (len start : Int) (cs co : Nat),
      goodSpans len cs co start spans →
      ∀ p : Int, start ≤ p → p < len → ∃ se ∈ spans, se.1 ≤ p ∧ p < se.2 := by
  intro spans
  induction spans with
  | nil =>
    intro len start cs co hg p hp1 hp2
    have h : len ≤ start := hg
    omega
  | cons se rest ih =>
    intro len start cs co hg p hp1 hp2
    obtain ⟨s, e⟩ := se
    obtain ⟨h0, hs, hlt, hle, hrest⟩ := hg
    by_cases hpe : p < e
    · exact ⟨(s, e), List.mem_cons_self _ _, by omega, hpe⟩
    · obtain ⟨se', hm, h1, h2⟩ := ih len (e - (co : Int)) cs co hrest p (by omega) hp2
      exact ⟨se', List.mem_cons_of_mem _ hm, h1, h2⟩

/-- Stripping never lengthens a string. -/
lemma pyStrip_length_le (s : List Char) : (pyStrip s).length ≤ s.length := by
  rw [pyStrip, List.length_reverse]
  calc ((s.dropWhile pyIsSpace).reverse.dropWhile pyIsSpace).length
      ≤ (s.dropWhile pyIsSpace).reverse.length := (List.dropWhile_sublist _).length_le
    _ = (s.dropWhile pyIsSpace).length := List.length_reverse _
    _ ≤ s.length := (List.dropWhile_sublist _).length_le

/-- A stripped slice of an interval of length at most `cs` has at most
`cs` characters. -/
lemma sliceChunk_length_le (text : List Char) (s e : Int) (cs : Nat)
    (h0 : 0 ≤ s) (h1 : 0 ≤ e) (he : e ≤ s + (cs : Int)) :
    (pyStrip (pySlice text s e)).length ≤ cs := by
  refine le_trans (pyStrip_length_le _) ?_
  simp only [pySlice, List.length_take, List.length_drop]
  rw [pyIdx, if_neg (by omega), pyIdx, if_neg (by omega)]
  omega

/-- Every chunk reconstructed from a well-formed chain with size 1000
has at most 1000 characters. -/
lemma spansToChunks_length_le (text : List Char) :
    ∀ (spans : List (Int × Int)) (start : Int),
      goodSpans (text.length) 1000 200 start spans →
      ∀ c ∈ spansToChunks text spans, c.length ≤ 1000 := by
  intro spans
  induction spans with
  | nil =>
    intro start _ c hc
    simp [spansToChunks_nil] at hc
  | cons se rest ih =>
    intro start hg c hc
    obtain ⟨s, e⟩ := se
    obtain ⟨h0, hs, hlt, hle, hrest⟩ := hg
    rw [spansToChunks_cons] at hc
    rcases List.mem_append.mp hc with h | h
    · by_cases hck : pyStrip (pySlice text s e) = []
      · rw [if_pos hck] at h
        simp at h
      · rw [if_neg hck] at h
        simp only [List.mem_singleton] at h
        subst h
        exact sliceChunk_length_le text s e 1000 h0 (by omega) (by omega)
    · exact ih (e - (200 : Int)) hrest c h

/-- Claim C4: for every text, `chunk_text(text)` with the default
parameters terminates within `len + 1` loop iterations; its chunks are
the stripped slices of a recorded interval chain in which each
interval holds at most `chunk_size = 1000` characters and the next
interval starts `chunk_overlap = 200` before the previous end, and
every position of the text is covered by some interval --- so the
chunks, with overlaps re-inserted, cover the text with no gaps modulo
the whitespace trimming at chunk boundaries. -/
theorem chunk_covers_text :
    ∀ text : List Char, ∃ spans : List (Int × Int),
      chunkSpansLoop text 1000 200 (text.length + 1) 0 = some spans ∧
      chunkTextFuel (text.length + 1) text 1000 200 = some (spansToChunks text spans) ∧
      goodSpans (text.length) 1000 200 0 spans ∧
      (∀ p : Int, 0 ≤ p → p < (text.length : Int) → ∃ se ∈ spans, se.1 ≤ p ∧ p < se.2) ∧
      (∀ c ∈ spansToChunks text spans, c.length ≤ 1000) := by
  intro text
  obtain ⟨spans, hspans, hgood⟩ :=
    chunkSpansLoop_total text (text.length + 1) 0 le_rfl (by push_cast; omega)
  refine ⟨spans, hspans, ?_, hgood,
    goodSpans_cover spans (text.length) 0 1000 200 hgood,
    spansToChunks_length_le text spans 0 hgood⟩
  rw [chunkTextFuel]
  by_cases ht : text = []
  · rw [if_pos ht]
    subst ht
    have h0 : chunkSpansLoop ([] : List Char) 1000 200 (List.length ([] : List Char) + 1) 0
        = some [] := rfl
    rw [h0] at hspans
    have hsp : spans = [] := (Option.some.inj hspans).symm
    rw [hsp]
    rfl
  · rw [if_neg ht]
    rw [chunkLoop_eq_spans, hspans]
    rfl
